import Mathlib

/-!
Verification of the modelbox virtual-node layer (`virtual_node.cc`) and of the
graph-checker contract exercised by `graph_checker_test.cc`.

The C++ code is shallowly embedded: each method becomes a pure Lean function
over explicit state.  `std::shared_ptr<SessionIO>` obtained from a weak
reference is modelled as `Option Nat` (an opaque handle id, `none` when the
caller has released the handle).  Calls to `PushGraphOutputBuffer` and
`SetLastError` are modelled as an emitted event list.
-/

namespace Modelbox

/-- Association-list lookup keyed by decidable equality (models map `find`). -/
def alookup {α β : Type} [DecidableEq α] (k : α) : List (α × β) → Option β
  | [] => none
  | (k', v) :: rest => if k' = k then some v else alookup k rest

/-- Association-list insert-or-replace (models `map[k] = v`). -/
def aupdate {α β : Type} [DecidableEq α] (k : α) (v : β) :
    List (α × β) → List (α × β)
  | [] => [(k, v)]
  | (k', v') :: rest =>
    if k' = k then (k, v) :: rest else (k', v') :: aupdate k v rest

/-- All keys of an association list are distinct. -/
def keysDistinct {α β : Type} (m : List (α × β)) : Prop :=
  m.Pairwise (fun a b => a.1 ≠ b.1)

/-- A session: `abort_` atomic flag and the weak `io_handle_` (`none` once the
user has released the `SessionIO`).  `sid` stands for the session identity used
as the key of `session_cache_map_`. -/
structure Session where
  sid : Nat
  isAbort : Bool
  ioHandle : Option Nat
deriving DecidableEq, Repr

/-- A stream: its identity and the owning session
(`GetStream()->GetSession()`). -/
structure Stream where
  sid : Nat
  session : Session
deriving DecidableEq, Repr

/-- `BufferIndexInfo`: lineage tag of a buffer.  `depth` is the depth stored in
the buffer's `InheritInfo`; a `child` node records the `InheritFrom`
predecessor, a `root` node models a null `InheritFrom` pointer. -/
inductive IndexInfo where
  | root (stream : Stream) (endFlag : Bool) (placeholder : Bool) (depth : Nat)
  | child (stream : Stream) (endFlag : Bool) (placeholder : Bool) (depth : Nat)
      (parent : IndexInfo)
deriving DecidableEq, Repr

/-- `IsEndFlag()` accessor. -/
def IndexInfo.isEndFlag : IndexInfo → Bool
  | .root _ e _ _ => e
  | .child _ e _ _ _ => e

/-- `IsPlaceholder()` accessor. -/
def IndexInfo.isPlaceholder : IndexInfo → Bool
  | .root _ _ p _ => p
  | .child _ _ p _ _ => p

/-- `GetStream()` accessor. -/
def IndexInfo.stream : IndexInfo → Stream
  | .root s _ _ _ => s
  | .child s _ _ _ _ => s

/-- `GetInheritInfo()->GetDeepth()` accessor. -/
def IndexInfo.depth : IndexInfo → Nat
  | .root _ _ _ d => d
  | .child _ _ _ d _ => d

/-- The loop `while (cur->GetInheritInfo()->GetDeepth() != 0) cur =
cur->GetInheritInfo()->GetInheritFrom();` from
`SessionUnmatchCache::CacheBuffer`.  Returns `none` when the walk reaches a
null `InheritFrom` before depth 0 (the C++ code would dereference null there,
so the claims only consider chains that do reach a depth-0 ancestor). -/
def IndexInfo.rootAncestor : IndexInfo → Option IndexInfo
  | .root s e p d => if d = 0 then some (.root s e p d) else none
  | .child s e p d parent =>
    if d = 0 then some (.child s e p d parent) else parent.rootAncestor

/-- A buffer: its `IndexInfo` and its optional error (`HasError`/`GetError`,
errors are identified by an opaque code). -/
structure Buffer where
  index : IndexInfo
  error : Option Nat
deriving DecidableEq, Repr

/-- Whether the session of a buffer still has a live `SessionIO` handle
(`GetStream()->GetSession()->GetSessionIO() != nullptr`). -/
def liveSession (b : Buffer) : Bool :=
  b.index.stream.session.ioHandle.isSome

/-- The per-port loop of `OutputVirtualNode::EraseInvalidData`: while the
front buffer's session has no live `SessionIO`, pop it; stop at the first
front buffer whose session is live. -/
def erasePortQueue : List Buffer → List Buffer
  | [] => []
  | b :: rest => if liveSession b then b :: rest else erasePortQueue rest

/-- `OutputVirtualNode::EraseInvalidData`: apply the pop loop to every input
port queue. -/
def eraseInvalidData (ports : List (String × List Buffer)) :
    List (String × List Buffer) :=
  ports.map (fun pq => (pq.1, erasePortQueue pq.2))

/-- The inner per-port loop of `OutputVirtualNode::Run`: skip end-flag and
placeholder buffers, record the error of every remaining errored buffer into
`last_error`, and accumulate `valid_output` in arrival order. -/
def collectValid : List Buffer → Option Nat → List Buffer × Option Nat
  | [], lastError => ([], lastError)
  | d :: rest, lastError =>
    if d.index.isEndFlag then collectValid rest lastError
    else if d.index.isPlaceholder then collectValid rest lastError
    else
      let lastError' := if d.error.isSome then d.error else lastError
      let (v, finalError) := collectValid rest lastError'
      (d :: v, finalError)

/-- The per-port-map loop of `OutputVirtualNode::Run`: build
`output[port_name]` for every port of the stream data map while threading
`last_error`. -/
def collectPorts : List (String × List Buffer) → Option Nat →
    List (String × List Buffer) × Option Nat
  | [], lastError => ([], lastError)
  | (name, dataList) :: rest, lastError =>
    let (v, lastError1) := collectValid dataList lastError
    let (o, lastError2) := collectPorts rest lastError1
    ((name, v) :: o, lastError2)

/-- One `MatchStreamData`: the owning session plus the per-port buffer lists
(`GetBufferList`). -/
structure MatchStreamData where
  session : Session
  bufferList : List (String × List Buffer)
deriving DecidableEq, Repr

/-- `MatchStreamData::GetDataCount`: total number of buffers. -/
def MatchStreamData.dataCount (m : MatchStreamData) : Nat :=
  (m.bufferList.map (fun pd => pd.2.length)).sum

/-- Observable calls issued by `OutputVirtualNode::Run` on the session's
`ExternalDataMapImpl` handle. -/
inductive OutEvent where
  | push (ioId : Nat) (output : List (String × List Buffer))
  | setLast (ioId : Nat) (err : Option Nat)
deriving DecidableEq, Repr

/-- The body of the match-stream loop of `OutputVirtualNode::Run` for a single
`MatchStreamData`: skip when it has no buffers, skip when the session is
aborted, skip when the `SessionIO` is gone; otherwise push the filtered output
and set the collected last error. -/
def outputVirtualRunOne (m : MatchStreamData) : List OutEvent :=
  if m.dataCount = 0 then []
  else if m.session.isAbort then []
  else
    match m.session.ioHandle with
    | none => []
    | some ioId =>
      let (output, lastError) := collectPorts m.bufferList none
      [.push ioId output, .setLast ioId lastError]

/-- `OutputVirtualNode::Run` over the whole generated match-stream-data
list. -/
def outputVirtualRun (ms : List MatchStreamData) : List OutEvent :=
  (ms.map outputVirtualRunOne).flatten

/-- All buffers contained in `push` events, in order. -/
def deliveredBuffers (evs : List OutEvent) : List Buffer :=
  (evs.map (fun ev =>
    match ev with
    | .push _ output => (output.map (fun pd => pd.2)).flatten
    | .setLast _ _ => [])).flatten

/-- Reference formulation of the valid-buffer filter: buffers that are neither
end-flag nor placeholder, as `List.filter`. -/
def validFilter (l : List Buffer) : List Buffer :=
  l.filter (fun b => !b.index.isEndFlag && !b.index.isPlaceholder)

/-- Reference formulation of the `last_error` reduction of a delivered group:
the last error among the valid buffers of all ports, in port order. -/
def lastErrorSpec (m : MatchStreamData) : Option Nat :=
  ((m.bufferList.map (fun pd => validFilter pd.2)).flatten).foldl
    (fun acc b => if b.error.isSome then b.error else acc) none

/-- `SessionUnmatchCache` state.  `portStreamsMap` maps each port name to its
stream buckets; buckets are kept in insertion order, first bucket = oldest,
matching the spec's description of `PopCache` taking the oldest insertion (the
container declaration lives in a header outside this repository slice). -/
structure SessionUnmatchCache where
  portEndFlagMap : List (String × Bool)
  portStreamsMap : List (String × List (Nat × List Buffer))
  lastError : Option Nat
deriving DecidableEq, Repr

/-- The `SessionUnmatchCache` constructor: every declared port starts with its
end flag cleared; no stream data yet. -/
def SessionUnmatchCache.new (portNames : List String) : SessionUnmatchCache :=
  { portEndFlagMap := portNames.map (fun n => (n, false))
    portStreamsMap := []
    lastError := none }

/-- `port_streams[stream].push_back(buffer)`: append the buffer to its stream
bucket, creating the bucket at the back on first sight of the stream. -/
def insertStreamBuffer (streams : List (Nat × List Buffer)) (streamId : Nat)
    (b : Buffer) : List (Nat × List Buffer) :=
  match streams with
  | [] => [(streamId, [b])]
  | (s, bl) :: rest =>
    if s = streamId then (s, bl ++ [b]) :: rest
    else (s, bl) :: insertStreamBuffer rest streamId b

/-- `port_streams_map_[port_name]` followed by the bucket insert: create the
port entry on first use. -/
def insertPortBuffer (m : List (String × List (Nat × List Buffer)))
    (portName : String) (streamId : Nat) (b : Buffer) :
    List (String × List (Nat × List Buffer)) :=
  match m with
  | [] => [(portName, insertStreamBuffer [] streamId b)]
  | (p, streams) :: rest =>
    if p = portName then (p, insertStreamBuffer streams streamId b) :: rest
    else (p, streams) :: insertPortBuffer rest portName streamId b

/-- `SessionUnmatchCache::CacheBuffer`: record the buffer's error as
`last_error_`, append the buffer to its (port, stream) bucket, and when the
buffer is an end flag whose depth-0 root ancestor is itself an end flag, set
the port's end flag. -/
def SessionUnmatchCache.cacheBuffer (c : SessionUnmatchCache)
    (portName : String) (b : Buffer) : SessionUnmatchCache :=
  let c1 := { c with
    lastError := if b.error.isSome then b.error else c.lastError }
  let c2 := { c1 with
    portStreamsMap :=
      insertPortBuffer c1.portStreamsMap portName b.index.stream.sid b }
  if b.index.isEndFlag = false then c2
  else
    match b.index.rootAncestor with
    | none => c2
    | some r =>
      if r.isEndFlag then
        { c2 with portEndFlagMap := aupdate portName true c2.portEndFlagMap }
      else c2

/-- `SessionUnmatchCache::AllPortStreamEnd`: every port's end flag is set. -/
def SessionUnmatchCache.allPortStreamEnd (c : SessionUnmatchCache) : Bool :=
  c.portEndFlagMap.all (fun pe => pe.2)

/-- Return status of `SessionUnmatchCache::PopCache`. -/
inductive PopStatus where
  | nodata
  | continued
deriving DecidableEq, Repr

/-- The per-port loop of `SessionUnmatchCache::PopCache`: for each port emit
the valid buffers of its first stream bucket (or an empty list, counting the
port as empty) and erase that bucket.  Mirrors the C++ loop with
`valid_data_list` accumulation and the `empty_port` counter. -/
def popCacheGo : List (String × List (Nat × List Buffer)) →
    List (String × List Buffer) × List (String × List (Nat × List Buffer)) × Nat
  | [] => ([], [], 0)
  | (name, streams) :: rest =>
    let r := popCacheGo rest
    match streams with
    | [] => ((name, []) :: r.1, (name, []) :: r.2.1, r.2.2 + 1)
    | firstBucket :: others =>
      ((name, (collectValid firstBucket.2 none).1) :: r.1,
       (name, others) :: r.2.1, r.2.2)

/-- `SessionUnmatchCache::PopCache`: fill the output buffer list, drop one
bucket per non-empty port, and return `NODATA` exactly when every port counted
as empty. -/
def SessionUnmatchCache.popCache (c : SessionUnmatchCache) :
    List (String × List Buffer) × SessionUnmatchCache × PopStatus :=
  let (out, m, cnt) := popCacheGo c.portStreamsMap
  (out, { c with portStreamsMap := m },
    if cnt = c.portStreamsMap.length then .nodata else .continued)

/-- Total number of stream buckets held by the cache (the drain loop removes
at least one per `CONTINUE` iteration, so this bounds the loop). -/
def totalBuckets (c : SessionUnmatchCache) : Nat :=
  (c.portStreamsMap.map (fun ps => ps.2.length)).sum

/-- The `while (cache->PopCache(...) != STATUS_NODATA) io->Push...` loop of
`OutputUnmatchVirtualNode::Run`, with explicit fuel: each iteration that
returns `CONTINUE` emits one output map. -/
def drainCache : Nat → SessionUnmatchCache →
    List (List (String × List Buffer)) × SessionUnmatchCache
  | 0, c => ([], c)
  | Nat.succ fuel, c =>
    let r := c.popCache
    if r.2.2 = PopStatus.nodata then ([], r.2.1)
    else
      let (outs, cF) := drainCache fuel r.2.1
      (r.1 :: outs, cF)

/-- Observable calls issued by `OutputUnmatchVirtualNode::Run` on a session's
`ExternalDataMapImpl` handle. -/
inductive UnmatchEvent where
  | push (ioId : Nat) (output : List (String × List Buffer))
  | setLast (ioId : Nat) (err : Option Nat)
deriving DecidableEq, Repr

/-- Routing of one received buffer in `OutputUnmatchVirtualNode::Run`: skip it
when its session is aborted, otherwise cache it into the session's
`SessionUnmatchCache` (created on demand with the node's input port names). -/
def intakeBuffer (portNames : List String)
    (m : List (Session × SessionUnmatchCache)) (portName : String)
    (b : Buffer) : List (Session × SessionUnmatchCache) :=
  let session := b.index.stream.session
  if session.isAbort then m
  else
    let cache := (alookup session m).getD (SessionUnmatchCache.new portNames)
    aupdate session (cache.cacheBuffer portName b) m

/-- Intake of everything received on one input port. -/
def intakePort (portNames : List String)
    (m : List (Session × SessionUnmatchCache)) (portName : String)
    (bufs : List Buffer) : List (Session × SessionUnmatchCache) :=
  bufs.foldl (fun m b => intakeBuffer portNames m portName b) m

/-- First phase of `OutputUnmatchVirtualNode::Run`: drain every input port and
route each buffer into its session's cache. -/
def intakePhase (portNames : List String)
    (m : List (Session × SessionUnmatchCache))
    (inputs : List (String × List Buffer)) :
    List (Session × SessionUnmatchCache) :=
  inputs.foldl (fun m pd => intakePort portNames m pd.1 pd.2) m

/-- Delivery for one session during the second phase of
`OutputUnmatchVirtualNode::Run`: when the `SessionIO` is alive, set the cached
last error and push every slice the drain loop yields; otherwise do
nothing. -/
def sessionStep (s : Session) (c : SessionUnmatchCache) :
    List UnmatchEvent × SessionUnmatchCache :=
  match s.ioHandle with
  | none => ([], c)
  | some ioId =>
    let r := drainCache (totalBuckets c + 1) c
    (UnmatchEvent.setLast ioId c.lastError ::
      r.1.map (fun o => UnmatchEvent.push ioId o), r.2)

/-- Second phase of `OutputUnmatchVirtualNode::Run`: deliver for each session,
then erase the entry when `AllPortStreamEnd() || session->IsAbort()`. -/
def processSessions : List (Session × SessionUnmatchCache) →
    List UnmatchEvent × List (Session × SessionUnmatchCache)
  | [] => ([], [])
  | (s, c) :: rest =>
    let pr := processSessions rest
    ((sessionStep s c).1 ++ pr.1,
      if (sessionStep s c).2.allPortStreamEnd || s.isAbort then pr.2
      else (s, (sessionStep s c).2) :: pr.2)

/-- `OutputUnmatchVirtualNode::Run`: intake then per-session delivery and
erasure.  Returns the emitted events and the new `session_cache_map_`. -/
def outputUnmatchRun (portNames : List String)
    (m : List (Session × SessionUnmatchCache))
    (inputs : List (String × List Buffer)) :
    List UnmatchEvent × List (Session × SessionUnmatchCache) :=
  processSessions (intakePhase portNames m inputs)

/-- All buffers contained in unmatch `push` events, in order. -/
def deliveredUnmatchBuffers (evs : List UnmatchEvent) : List Buffer :=
  (evs.map (fun ev =>
    match ev with
    | .push _ output => (output.map (fun pd => pd.2)).flatten
    | .setLast _ _ => [])).flatten

/-- Modelled from the spec: the `OutputType`/`ConditionType` classification of
a flowunit used by the graph checker (the checker itself is outside this
repository slice; only its test suite is present). -/
inductive NodeKind where
  | normal
  | expand
  | collapse
  | condition
deriving DecidableEq, Repr

/-- Modelled from the spec: one typed edge `src:srcPort -> dst:dstPort` of the
declared graph. -/
structure GEdge where
  src : String
  srcPort : String
  dst : String
  dstPort : String
deriving DecidableEq, Repr

/-- Modelled from the spec: a declared graph together with a topological
processing order of its nodes (the spec's algorithm processes nodes in
topological order). -/
structure GraphDef where
  nodes : List (String × NodeKind)
  edges : List GEdge
  topo : List String

/-- Modelled from the spec: checker verdict, `OK` or `BADCONF`. -/
inductive CheckStatus where
  | ok
  | badconf
deriving DecidableEq, Repr

/-- Kind of a named node. -/
def kindOf (g : GraphDef) (n : String) : Option NodeKind :=
  alookup n g.nodes

/-- All stkmap in the list are equal (an edge may only connect nodes whose
hierarchy stkmap agree). -/
def allEq : List (List String) → Bool
  | [] => true
  | x :: xs => xs.all (fun y => decide (y = x))

/-- All in-edges target the same destination port. -/
def samePort : List GEdge → Bool
  | [] => true
  | e :: es => es.all (fun e2 => decide (e2.dstPort = e.dstPort))

/-- The hierarchy stkmap contributed by the predecessors of a node; `none`
when some predecessor has not been processed yet (invalid topological
order). -/
def seqContribs (stkmap : List (String × List String)) :
    List GEdge → Option (List (List String))
  | [] => some []
  | e :: es =>
    match alookup e.src stkmap, seqContribs stkmap es with
    | some s, some rest => some (s :: rest)
    | _, _ => none

/-- First stack of the contribution list (sources get the empty stack). -/
def headStack : List (List String) → List String
  | [] => []
  | s :: _ => s

/-- Modelled from the spec: a node closes the condition on top of its input
hierarchy when at least two in-edges converge into one input port while a
condition opener sits on top of the shared stack (spec rule "condition
convergence": all branches re-converge at one node into the same input
port). -/
def isConvergence (g : GraphDef) (inEdges : List GEdge)
    (s : List String) : Bool :=
  decide (2 ≤ inEdges.length) && samePort inEdges &&
    (match s with
     | [] => false
     | t :: _ => decide (kindOf g t = some NodeKind.condition))

/-- Modelled from the spec: effect of a node kind on the hierarchy stack.
Openers (expand, condition) push themselves; a collapse must find an expand on
top of the stack — popping it and recording it as the collapse's match node —
otherwise the graph is ill-formed (spec rule "a collapse with no preceding
expand on its input hierarchy is ill-formed"). -/
def applyKind (g : GraphDef) (n : String) (kind : NodeKind)
    (s1 : List String) (convMatch : Option String) :
    Option (List String × Option String) :=
  match kind with
  | .expand => some (n :: s1, convMatch)
  | .condition => some (n :: s1, convMatch)
  | .normal => some (s1, convMatch)
  | .collapse =>
    match s1 with
    | [] => none
    | top :: rest =>
      if kindOf g top = some NodeKind.expand then some (rest, some top)
      else none

/-- Modelled from the spec: process one node during the checker walk — gather
the predecessors' stkmap, require them to agree, close a converging condition,
then apply the node's own structural effect.  Returns the node's output stack
and its assigned match node, or `none` for `BADCONF`. -/
def processNode (g : GraphDef) (stkmap : List (String × List String))
    (n : String) : Option (List String × Option String) :=
  match alookup n g.nodes with
  | none => none
  | some kind =>
    match seqContribs stkmap (g.edges.filter (fun e => decide (e.dst = n))) with
    | none => none
    | some contribs =>
      if allEq contribs then
        if isConvergence g (g.edges.filter (fun e => decide (e.dst = n)))
            (headStack contribs) then
          applyKind g n kind (headStack contribs).tail
            (headStack contribs).head?
        else
          applyKind g n kind (headStack contribs) none
      else none

/-- Modelled from the spec: the checker walk over the topological order,
accumulating each node's output hierarchy stack and match-node assignment. -/
def checkFold (g : GraphDef) :
    List (String × List String) → List (String × Option String) →
    List String →
    Option (List (String × List String) × List (String × Option String))
  | stkmap, massign, [] => some (stkmap, massign)
  | stkmap, massign, n :: rest =>
    match processNode g stkmap n with
    | none => none
    | some (outS, m) =>
      checkFold g (aupdate n outS stkmap) (aupdate n m massign) rest

/-- Modelled from the spec: the graph build/check.  Returns `BADCONF` at the
first violation, otherwise `OK` together with the match-node assignment
(`Node::GetMatchNode`). -/
def checkGraph (g : GraphDef) :
    CheckStatus × List (String × Option String) :=
  match checkFold g [] [] g.topo with
  | none => (CheckStatus.badconf, [])
  | some (_, massign) => (CheckStatus.ok, massign)

/-- Test graph `ExpandCollapseNotMatch_OnlyCollapse`: a source routed directly
into `collapse_1_1`. -/
def gOnlyCollapse : GraphDef :=
  { nodes := [("a", .normal), ("b", .collapse), ("c", .normal)]
    edges := [⟨"a", "Out_1", "b", "In_1"⟩, ⟨"b", "Out_1", "c", "In_1"⟩]
    topo := ["a", "b", "c"] }

/-- Test graph `ExpandCollapseMatch_MultiOutputExpandDirectConnectCollapse`:
`expand_1_2` feeding both ports of `collapse_2_1` with no intermediate
node. -/
def gDirectEC : GraphDef :=
  { nodes := [("a", .normal), ("b", .expand), ("d", .collapse), ("e", .normal)]
    edges := [⟨"a", "Out_1", "b", "In_1"⟩, ⟨"b", "Out_1", "d", "In_1"⟩,
              ⟨"b", "Out_2", "d", "In_2"⟩, ⟨"d", "Out_1", "e", "In_1"⟩]
    topo := ["a", "b", "d", "e"] }

/-- Test graph `GetSetMatchNode`:
`a → b(expand) → c(condition) → d → e(collapse) → f`, with both condition
outputs converging into `d:In_1`. -/
def gMatchNode : GraphDef :=
  { nodes := [("a", .normal), ("b", .expand), ("c", .condition),
              ("d", .normal), ("e", .collapse), ("f", .normal)]
    edges := [⟨"a", "Out_1", "b", "In_1"⟩, ⟨"b", "Out_1", "c", "In_1"⟩,
              ⟨"c", "Out_1", "d", "In_1"⟩, ⟨"c", "Out_2", "d", "In_1"⟩,
              ⟨"d", "Out_1", "e", "In_1"⟩, ⟨"e", "Out_1", "f", "In_1"⟩]
    topo := ["a", "b", "c", "d", "e", "f"] }

/-! Concrete fixtures used by witnesses and counterexamples. -/

/-- A session with a live handle, not aborted. -/
def sLive : Session := ⟨0, false, some 0⟩

/-- An aborted session whose user handle is still alive. -/
def sAborted : Session := ⟨2, true, some 7⟩

/-- A session whose user handle has been released. -/
def sDead : Session := ⟨4, false, none⟩

/-- A plain buffer of the live session carrying an error. -/
def bufValidErr : Buffer := ⟨.root ⟨0, sLive⟩ false false 0, some 3⟩

/-- A plain buffer of the live session with no error. -/
def bufValid : Buffer := ⟨.root ⟨1, sLive⟩ false false 0, none⟩

/-- An end-flag buffer of the live session carrying an error. -/
def bufEndErr : Buffer := ⟨.root ⟨0, sLive⟩ true false 0, some 1⟩

/-- An end-flag buffer of the live session, depth 0, no error. -/
def bufEnd : Buffer := ⟨.root ⟨1, sLive⟩ true false 0, none⟩

/-- A buffer owned by the released-handle session. -/
def bufDead : Buffer := ⟨.root ⟨2, sDead⟩ false false 0, none⟩

/-- A buffer owned by the aborted session. -/
def bufAborted : Buffer := ⟨.root ⟨5, sAborted⟩ false false 0, none⟩

/-! Helper lemmas on the output-virtual-node loops. -/

/-- The `valid_output` component of the inner loop is the end-flag/placeholder
filter, independently of the threaded `last_error`. -/
theorem collectValid_fst (l : List Buffer) (le : Option Nat) :
    (collectValid l le).1 = validFilter l := by
  induction l generalizing le with
  | nil => simp [collectValid, validFilter]
  | cons d rest ih =>
    by_cases he : d.index.isEndFlag
    · simp [collectValid, validFilter, he, List.filter_cons, ih]
    · by_cases hp : d.index.isPlaceholder
      · simp [collectValid, validFilter, he, hp, List.filter_cons, ih]
      · simp [collectValid, validFilter, he, hp, List.filter_cons, ih]

/-- The `last_error` component of the inner loop only looks at the valid
buffers, folding their errors left to right. -/
theorem collectValid_snd (l : List Buffer) (le : Option Nat) :
    (collectValid l le).2 =
      (validFilter l).foldl
        (fun acc b => if b.error.isSome then b.error else acc) le := by
  induction l generalizing le with
  | nil => simp [collectValid, validFilter]
  | cons d rest ih =>
    by_cases he : d.index.isEndFlag
    · simp [collectValid, validFilter, he, List.filter_cons, ih]
    · by_cases hp : d.index.isPlaceholder
      · simp [collectValid, validFilter, he, hp, List.filter_cons, ih]
      · simp only [collectValid, he, hp, if_false, Bool.false_eq_true]
        simp [validFilter, List.filter_cons, he, hp, ih]

/-- The output map built by the per-port loop: each port paired with its
filtered buffer list. -/
theorem collectPorts_fst (pl : List (String × List Buffer)) (le : Option Nat) :
    (collectPorts pl le).1 = pl.map (fun pd => (pd.1, validFilter pd.2)) := by
  induction pl generalizing le with
  | nil => simp [collectPorts]
  | cons pd rest ih =>
    obtain ⟨name, dataList⟩ := pd
    simp [collectPorts, collectValid_fst, ih]

/-- The `last_error` threaded through all ports equals the fold over the
concatenation of the per-port valid buffers. -/
theorem collectPorts_snd (pl : List (String × List Buffer)) (le : Option Nat) :
    (collectPorts pl le).2 =
      ((pl.map (fun pd => validFilter pd.2)).flatten).foldl
        (fun acc b => if b.error.isSome then b.error else acc) le := by
  induction pl generalizing le with
  | nil => simp [collectPorts]
  | cons pd rest ih =>
    obtain ⟨name, dataList⟩ := pd
    simp [collectPorts, collectValid_snd, ih, List.foldl_append]

/-- Membership in the filter result forces both flags to be false. -/
theorem mem_validFilter {b : Buffer} {l : List Buffer}
    (h : b ∈ validFilter l) :
    b.index.isEndFlag = false ∧ b.index.isPlaceholder = false := by
  have := List.of_mem_filter h
  simpa using this

/-- Shape of the events emitted for one delivered match stream. -/
theorem runOne_eq (m : MatchStreamData) (ioId : Nat)
    (hc : m.dataCount ≠ 0) (ha : m.session.isAbort = false)
    (hio : m.session.ioHandle = some ioId) :
    outputVirtualRunOne m =
      [.push ioId (m.bufferList.map (fun pd => (pd.1, validFilter pd.2))),
       .setLast ioId (lastErrorSpec m)] := by
  unfold outputVirtualRunOne
  rw [if_neg hc, ha, hio]
  simp [collectPorts_fst, collectPorts_snd, lastErrorSpec]

/-- Any event emitted by `outputVirtualRun` comes from a delivered match
stream whose session passed the abort and handle checks. -/
theorem run_event_source (ms : List MatchStreamData) (ev : OutEvent)
    (hev : ev ∈ outputVirtualRun ms) :
    ∃ m ∈ ms, ∃ ioId,
      m.session.ioHandle = some ioId ∧ m.session.isAbort = false ∧
      m.dataCount ≠ 0 ∧
      ev ∈ ([.push ioId (m.bufferList.map (fun pd => (pd.1, validFilter pd.2))),
             .setLast ioId (lastErrorSpec m)] : List OutEvent) := by
  unfold outputVirtualRun at hev
  rw [List.mem_flatten] at hev
  obtain ⟨l, hl, hevl⟩ := hev
  rw [List.mem_map] at hl
  obtain ⟨m, hm, rfl⟩ := hl
  refine ⟨m, hm, ?_⟩
  unfold outputVirtualRunOne at hevl
  by_cases hc : m.dataCount = 0
  · rw [if_pos hc] at hevl; simp at hevl
  · rw [if_neg hc] at hevl
    by_cases ha : m.session.isAbort
    · rw [if_pos ha] at hevl; simp at hevl
    · rw [if_neg ha] at hevl
      cases hio : m.session.ioHandle with
      | none => rw [hio] at hevl; simp at hevl
      | some ioId =>
        rw [hio] at hevl
        refine ⟨ioId, rfl, by simpa using ha, hc, ?_⟩
        simpa [collectPorts_fst, collectPorts_snd, lastErrorSpec] using hevl

/-- C1.  Every buffer inside a `PushGraphOutputBuffer` output emitted by
`OutputVirtualNode::Run` has `IsEndFlag = false` and `IsPlaceholder = false`:
end-flag and placeholder buffers are removed from every per-port list before
delivery. -/
theorem c1_push_buffers_valid (ms : List MatchStreamData) (ev : OutEvent)
    (hev : ev ∈ outputVirtualRun ms) (ioId : Nat)
    (output : List (String × List Buffer)) (hpush : ev = .push ioId output)
    (p : String) (bufs : List Buffer) (hpb : (p, bufs) ∈ output)
    (b : Buffer) (hb : b ∈ bufs) :
    b.index.isEndFlag = false ∧ b.index.isPlaceholder = false := by
  obtain ⟨m, _, ioId', _, _, _, hmem⟩ := run_event_source ms ev hev
  subst hpush
  rcases List.mem_cons.mp hmem with heq | hmem'
  · injection heq with h1 h2
    subst h2
    rw [List.mem_map] at hpb
    obtain ⟨pd, hpdmem, hpd⟩ := hpb
    have hb2 : validFilter pd.2 = bufs := (Prod.ext_iff.mp hpd).2
    exact mem_validFilter (hb2 ▸ hb)
  · simp at hmem'

/-- Witness for C1 at a concrete run containing one valid buffer. -/
theorem c1_witness :
    (OutEvent.push 0 [("p", [bufValid])] ∈
      outputVirtualRun [⟨sLive, [("p", [bufValid])]⟩]) ∧
    ((("p", [bufValid]) : String × List Buffer) ∈ [("p", [bufValid])]) ∧
    bufValid ∈ [bufValid] ∧
    (bufValid.index.isEndFlag = false ∧
      bufValid.index.isPlaceholder = false) :=
  ⟨by decide, by decide, by decide,
    c1_push_buffers_valid [⟨sLive, [("p", [bufValid])]⟩]
      (.push 0 [("p", [bufValid])]) (by decide) 0 [("p", [bufValid])] rfl
      "p" [bufValid] (by decide) bufValid (by decide)⟩

/-! C7: `OutputVirtualNode::EraseInvalidData`. -/

/-- The per-port pop loop removes exactly the longest prefix of buffers whose
session handle is gone. -/
theorem erasePortQueue_eq_dropWhile (q : List Buffer) :
    erasePortQueue q = q.dropWhile (fun b => !liveSession b) := by
  induction q with
  | nil => rfl
  | cons b rest ih =>
    by_cases hb : liveSession b
    · simp [erasePortQueue, List.dropWhile, hb]
    · simp [erasePortQueue, List.dropWhile, hb, ih]

/-- Everything behind a live-session buffer survives the pop loop. -/
theorem erasePortQueue_suffix_of_live (pre post : List Buffer) (b : Buffer)
    (hb : liveSession b = true) :
    post <:+ erasePortQueue (pre ++ b :: post) := by
  induction pre with
  | nil =>
    simp only [List.nil_append, erasePortQueue, hb, if_true]
    exact ⟨[b], rfl⟩
  | cons a pre' ih =>
    by_cases ha : liveSession a
    · simp only [List.cons_append, erasePortQueue, ha, if_true]
      exact ⟨a :: pre' ++ [b], by simp⟩
    · simpa only [List.cons_append, erasePortQueue, ha, if_false,
        Bool.false_eq_true] using ih

/-- C7.  `EraseInvalidData` pops from each input-port queue exactly the
longest prefix of buffers whose session's `SessionIO` has been released: a
live head leaves the queue unchanged, and no buffer behind the first
live-session buffer is removed. -/
theorem c7_eraseInvalidData (ports : List (String × List Buffer)) :
    (eraseInvalidData ports =
      ports.map (fun pq => (pq.1, pq.2.dropWhile (fun b => !liveSession b)))) ∧
    (∀ (q rest : List Buffer) (b : Buffer), q = b :: rest →
      liveSession b = true → erasePortQueue q = q) ∧
    (∀ (q pre post : List Buffer) (b : Buffer), q = pre ++ b :: post →
      liveSession b = true → post <:+ erasePortQueue q) := by
  refine ⟨?_, ?_, ?_⟩
  · simp [eraseInvalidData, erasePortQueue_eq_dropWhile]
  · intro q rest b hq hb
    subst hq
    simp [erasePortQueue, hb]
  · intro q pre post b hq hb
    subst hq
    exact erasePortQueue_suffix_of_live pre post b hb

/-- Witness for C7 on a concrete queue: a dead head is dropped, the live
buffer and everything behind it survive. -/
theorem c7_witness :
    (eraseInvalidData [("p", [bufDead, bufValid, bufDead])] =
      [("p", [bufValid, bufDead])]) ∧
    [bufDead] <:+ erasePortQueue [bufDead, bufValid, bufDead] :=
  ⟨((c7_eraseInvalidData [("p", [bufDead, bufValid, bufDead])]).1).trans
      (by decide),
    (c7_eraseInvalidData []).2.2 [bufDead, bufValid, bufDead] [bufDead]
      [bufDead] bufValid (by decide) (by decide)⟩

/-! C2: `SessionUnmatchCache::PopCache`. -/

/-- Buffers of the first stream bucket of a port (empty when the port has no
stream). -/
def firstBucketBuffers : List (Nat × List Buffer) → List Buffer
  | [] => []
  | bkt :: _ => bkt.2

/-- Behaviour of the per-port pop loop: emitted lists, remaining buckets and
the `empty_port` counter. -/
theorem popCacheGo_spec (m : List (String × List (Nat × List Buffer))) :
    (popCacheGo m).1 =
      m.map (fun ps => (ps.1, validFilter (firstBucketBuffers ps.2))) ∧
    (popCacheGo m).2.1 = m.map (fun ps => (ps.1, ps.2.tail)) ∧
    ((popCacheGo m).2.2 = m.length ↔ ∀ ps ∈ m, ps.2 = []) ∧
    (popCacheGo m).2.2 ≤ m.length := by
  induction m with
  | nil => simp [popCacheGo]
  | cons ps rest ih =>
    obtain ⟨name, streams⟩ := ps
    obtain ⟨ih1, ih2, ih3, ih4⟩ := ih
    cases streams with
    | nil =>
      refine ⟨?_, ?_, ?_, ?_⟩
      · simp [popCacheGo, ih1, firstBucketBuffers, validFilter]
      · simp [popCacheGo, ih2]
      · simp only [popCacheGo, List.length_cons]
        constructor
        · intro h ps hps
          rcases List.mem_cons.mp hps with rfl | hps'
          · rfl
          · exact ih3.mp (by omega) ps hps'
        · intro h
          have := ih3.mpr (fun ps hps => h ps (List.mem_cons_of_mem _ hps))
          omega
      · simp only [popCacheGo, List.length_cons]; omega
    | cons firstBucket others =>
      refine ⟨?_, ?_, ?_, ?_⟩
      · simp [popCacheGo, ih1, firstBucketBuffers, collectValid_fst]
      · simp [popCacheGo, ih2]
      · simp only [popCacheGo, List.length_cons]
        constructor
        · intro h; omega
        · intro h
          exact absurd (h _ (List.mem_cons_self _ _)) (by simp)
      · simp only [popCacheGo, List.length_cons]; omega

/-- C2.  `PopCache` returns `NODATA` iff every port of the cache had no
streams at entry; otherwise it removes each non-empty port's oldest stream
bucket, emits only that bucket's non-end-flag non-placeholder buffers under
the port name, and returns `CONTINUE`.  End flags and the last error are left
untouched. -/
theorem c2_popCache (c : SessionUnmatchCache) :
    ((c.popCache.2.2 = PopStatus.nodata) ↔
      ∀ ps ∈ c.portStreamsMap, ps.2 = []) ∧
    ((c.popCache.2.2 = PopStatus.continued) ↔
      ∃ ps ∈ c.portStreamsMap, ps.2 ≠ []) ∧
    (c.popCache.2.1.portStreamsMap =
      c.portStreamsMap.map (fun ps => (ps.1, ps.2.tail))) ∧
    (c.popCache.1 =
      c.portStreamsMap.map
        (fun ps => (ps.1, validFilter (firstBucketBuffers ps.2)))) ∧
    (c.popCache.2.1.portEndFlagMap = c.portEndFlagMap) ∧
    (c.popCache.2.1.lastError = c.lastError) := by
  obtain ⟨h1, h2, h3, h4⟩ := popCacheGo_spec c.portStreamsMap
  have hstatus : c.popCache.2.2 =
      (if (popCacheGo c.portStreamsMap).2.2 = c.portStreamsMap.length
        then PopStatus.nodata else PopStatus.continued) := rfl
  refine ⟨?_, ?_, ?_, ?_, ?_, ?_⟩
  · rw [hstatus]
    by_cases hc : (popCacheGo c.portStreamsMap).2.2 = c.portStreamsMap.length
    · simpa [hc] using h3.mp hc
    · simp only [hc, if_false]
      constructor
      · intro h; exact absurd h (by simp)
      · intro h; exact absurd (h3.mpr h) hc
  · rw [hstatus]
    by_cases hc : (popCacheGo c.portStreamsMap).2.2 = c.portStreamsMap.length
    · simp only [hc, if_true]
      constructor
      · intro h; exact absurd h (by simp)
      · rintro ⟨ps, hps, hne⟩; exact absurd (h3.mp hc ps hps) hne
    · simp only [hc, if_false, true_iff]
      by_contra hnone
      push_neg at hnone
      exact hc (h3.mpr hnone)
  · exact h2
  · exact h1
  · rfl
  · rfl

/-- Witness for C2 on a concrete two-port cache: one port holds two buckets,
the other none; the call strips the end flag from the oldest bucket, drops
that bucket only, and reports `CONTINUE`. -/
theorem c2_witness :
    ((⟨[("p", false), ("q", false)],
       [("p", [(1, [bufEnd, bufValid]), (2, [bufValidErr])]), ("q", [])],
       none⟩ : SessionUnmatchCache).popCache.2.2 = PopStatus.continued) ∧
    ((⟨[("p", false), ("q", false)],
       [("p", [(1, [bufEnd, bufValid]), (2, [bufValidErr])]), ("q", [])],
       none⟩ : SessionUnmatchCache).popCache.1 =
      [("p", [bufValid]), ("q", [])]) :=
  ⟨(c2_popCache _).2.1.mpr
      ⟨("p", [(1, [bufEnd, bufValid]), (2, [bufValidErr])]),
        by decide, by decide⟩,
    ((c2_popCache _).2.2.2.1).trans (by decide)⟩

/-! C3: error propagation through `OutputVirtualNode::Run`. -/

/-- Counterexample to C3 as stated: `bufEndErr` carries an error, belongs to
the delivered group (the push does happen), yet no buffer at all reaches the
output — the end-flag test runs before the error is collected, so an errored
end-flag buffer is dropped and its error is not propagated either. -/
theorem c3_counterexample :
    bufEndErr.error.isSome = true ∧
    (("p", [bufEndErr]) ∈
      (⟨sLive, [("p", [bufEndErr])]⟩ : MatchStreamData).bufferList) ∧
    outputVirtualRunOne ⟨sLive, [("p", [bufEndErr])]⟩ =
      [.push 0 [("p", [])], .setLast 0 none] ∧
    deliveredBuffers (outputVirtualRunOne ⟨sLive, [("p", [bufEndErr])]⟩) =
      [] := by
  decide

/-- C3 (amended).  For each delivered match-stream group, every errored buffer
that is neither an end flag nor a placeholder is still included in the pushed
output, and the delivery ends with exactly one `SetLastError` call whose
argument is the last collected error among those valid buffers (in port
order). -/
theorem c3_error_propagation (m : MatchStreamData) (ioId : Nat)
    (hc : m.dataCount ≠ 0) (ha : m.session.isAbort = false)
    (hio : m.session.ioHandle = some ioId) :
    outputVirtualRunOne m =
      [.push ioId (m.bufferList.map (fun pd => (pd.1, validFilter pd.2))),
       .setLast ioId (lastErrorSpec m)] ∧
    ∀ (p : String) (bufs : List Buffer) (b : Buffer),
      (p, bufs) ∈ m.bufferList → b ∈ bufs → b.error.isSome = true →
      b.index.isEndFlag = false → b.index.isPlaceholder = false →
      ∃ obufs,
        (p, obufs) ∈ m.bufferList.map (fun pd => (pd.1, validFilter pd.2)) ∧
        b ∈ obufs := by
  refine ⟨runOne_eq m ioId hc ha hio, ?_⟩
  intro p bufs b hpb hb herr hef hph
  refine ⟨validFilter bufs, ?_, ?_⟩
  · exact List.mem_map_of_mem (fun pd => (pd.1, validFilter pd.2)) hpb
  · exact List.mem_filter.mpr ⟨hb, by simp [hef, hph]⟩

/-- Witness for C3 (amended) on a group holding one errored valid buffer and
one end flag. -/
theorem c3_witness :
    outputVirtualRunOne ⟨sLive, [("p", [bufValidErr, bufEnd])]⟩ =
      [.push 0 [("p", [bufValidErr])], .setLast 0 (some 3)] ∧
    ∃ obufs,
      (("p", obufs) ∈ ([("p", [bufValidErr])] : List (String × List Buffer)))
        ∧ bufValidErr ∈ obufs := by
  have h := c3_error_propagation ⟨sLive, [("p", [bufValidErr, bufEnd])]⟩ 0
    (by decide) (by decide) (by decide)
  exact ⟨h.1.trans (by decide),
    h.2 "p" [bufValidErr, bufEnd] bufValidErr (by decide) (by decide)
      (by decide) (by decide) (by decide)⟩

/-! C10: delivery of a group made only of end flags and placeholders. -/

/-- C10.  When a delivered match-stream group contains at least one buffer but
every buffer on every port is an end flag or a placeholder,
`OutputVirtualNode::Run` still calls `PushGraphOutputBuffer` with an empty
buffer list per port and then calls `SetLastError` with a null error. -/
theorem c10_sentinel_only_group (m : MatchStreamData) (ioId : Nat)
    (hc : m.dataCount ≠ 0) (ha : m.session.isAbort = false)
    (hio : m.session.ioHandle = some ioId)
    (hall : ∀ (p : String) (bufs : List Buffer) (b : Buffer),
      (p, bufs) ∈ m.bufferList → b ∈ bufs →
      b.index.isEndFlag = true ∨ b.index.isPlaceholder = true) :
    outputVirtualRunOne m =
      [.push ioId (m.bufferList.map (fun pd => (pd.1, ([] : List Buffer)))),
       .setLast ioId none] := by
  have hvf : ∀ pd ∈ m.bufferList, validFilter pd.2 = [] := by
    intro pd hpd
    rw [validFilter, List.filter_eq_nil_iff]
    intro b hb
    rcases hall pd.1 pd.2 b hpd hb with h | h <;> simp [h]
  have hmap : m.bufferList.map (fun pd => (pd.1, validFilter pd.2)) =
      m.bufferList.map (fun pd => (pd.1, ([] : List Buffer))) :=
    List.map_congr_left (fun pd hpd => by rw [hvf pd hpd])
  have hle : lastErrorSpec m = none := by
    unfold lastErrorSpec
    have : m.bufferList.map (fun pd => validFilter pd.2) =
        m.bufferList.map (fun _ => ([] : List Buffer)) :=
      List.map_congr_left (fun pd hpd => hvf pd hpd)
    rw [this]
    simp
  rw [runOne_eq m ioId hc ha hio, hmap, hle]

/-- Witness for C10 on a group holding a single end-flag buffer. -/
theorem c10_witness :
    outputVirtualRunOne ⟨sLive, [("p", [bufEnd])]⟩ =
      [.push 0 [("p", [])], .setLast 0 none] :=
  (c10_sentinel_only_group ⟨sLive, [("p", [bufEnd])]⟩ 0 (by decide)
    (by decide) (by decide)
    (by
      intro p bufs b hpb hb
      simp only [List.mem_singleton, Prod.mk.injEq] at hpb
      obtain ⟨rfl, rfl⟩ := hpb
      simp only [List.mem_singleton] at hb
      subst hb
      left
      decide)).trans (by decide)

/-! C4: `SessionUnmatchCache::CacheBuffer` end-flag walk and
`AllPortStreamEnd`. -/

/-- C4.  Provided the `InheritFrom` walk of the cached buffer reaches a
depth-0 ancestor `r`, `CacheBuffer` sets the port's end flag (to true) exactly
when the buffer is an end flag and `r` is itself an end flag — otherwise the
end-flag map is untouched.  `AllPortStreamEnd` is true iff every port's end
flag has been set. -/
theorem c4_endflag_walk (c : SessionUnmatchCache) (portName : String)
    (b : Buffer) (r : IndexInfo) (hr : b.index.rootAncestor = some r) :
    ((c.cacheBuffer portName b).portEndFlagMap =
      if b.index.isEndFlag && r.isEndFlag then
        aupdate portName true c.portEndFlagMap
      else c.portEndFlagMap) ∧
    ∀ c' : SessionUnmatchCache,
      (c'.allPortStreamEnd = true ↔ ∀ pe ∈ c'.portEndFlagMap, pe.2 = true) := by
  constructor
  · unfold SessionUnmatchCache.cacheBuffer
    by_cases he : b.index.isEndFlag
    · rw [he]
      simp only [Bool.true_eq_false, if_false, hr, Bool.true_and]
      by_cases hre : r.isEndFlag
      · rw [hre]; simp
      · simp only [Bool.not_eq_true] at hre
        rw [hre]; simp
    · simp only [Bool.not_eq_true] at he
      rw [he]
      simp
  · intro c'
    simp [SessionUnmatchCache.allPortStreamEnd, List.all_eq_true]

/-- Witness for C4: caching a depth-0 end-flag buffer into a fresh one-port
cache flips the port's flag, after which `AllPortStreamEnd` holds. -/
theorem c4_witness :
    (((SessionUnmatchCache.new ["p"]).cacheBuffer "p" bufEnd).portEndFlagMap =
      [("p", true)]) ∧
    ((SessionUnmatchCache.new ["p"]).cacheBuffer "p" bufEnd).allPortStreamEnd
      = true := by
  have h := c4_endflag_walk (SessionUnmatchCache.new ["p"]) "p" bufEnd
    bufEnd.index (by decide)
  exact ⟨h.1.trans (by decide), (h.2 _).mpr (by decide)⟩

/-! Association-list helper lemmas. -/

/-- Looking up a key absent from every entry yields `none`. -/
theorem alookup_eq_none {α β : Type} [DecidableEq α] (k : α)
    (m : List (α × β)) (h : ∀ e ∈ m, e.1 ≠ k) : alookup k m = none := by
  induction m with
  | nil => rfl
  | cons e rest ih =>
    rw [alookup]
    rw [if_neg (h e (List.mem_cons_self e rest))]
    exact ih (fun e' he' => h e' (List.mem_cons_of_mem _ he'))

/-- Members of `aupdate` are the new pair or old pairs. -/
theorem mem_aupdate {α β : Type} [DecidableEq α] {k : α} {v : β}
    {m : List (α × β)} {p : α × β} (h : p ∈ aupdate k v m) :
    p = (k, v) ∨ p ∈ m := by
  induction m with
  | nil => simpa [aupdate] using h
  | cons e rest ih =>
    obtain ⟨k', v'⟩ := e
    rw [aupdate] at h
    by_cases hk : k' = k
    · rw [if_pos hk] at h
      rcases List.mem_cons.mp h with rfl | h'
      · exact Or.inl rfl
      · exact Or.inr (List.mem_cons_of_mem _ h')
    · rw [if_neg hk] at h
      rcases List.mem_cons.mp h with rfl | h'
      · exact Or.inr (List.mem_cons_self _ _)
      · rcases ih h' with h'' | h''
        · exact Or.inl h''
        · exact Or.inr (List.mem_cons_of_mem _ h'')

/-- `aupdate` keeps keys distinct. -/
theorem aupdate_keysDistinct {α β : Type} [DecidableEq α] (k : α) (v : β)
    (m : List (α × β)) (h : keysDistinct m) : keysDistinct (aupdate k v m) := by
  induction m with
  | nil => simp [aupdate, keysDistinct]
  | cons e rest ih =>
    obtain ⟨k', v'⟩ := e
    rw [keysDistinct, List.pairwise_cons] at h
    obtain ⟨hne, hrest⟩ := h
    rw [aupdate]
    by_cases hk : k' = k
    · rw [if_pos hk]
      rw [keysDistinct, List.pairwise_cons]
      exact ⟨fun e he => hk ▸ hne e he, hrest⟩
    · rw [if_neg hk]
      rw [keysDistinct, List.pairwise_cons]
      refine ⟨?_, ih hrest⟩
      intro e he
      rcases mem_aupdate he with rfl | he'
      · exact hk
      · exact hne e he'

/-- Updating a different key does not change a lookup. -/
theorem alookup_aupdate_ne {α β : Type} [DecidableEq α] {k k' : α} (v : β)
    (m : List (α × β)) (h : k' ≠ k) :
    alookup k (aupdate k' v m) = alookup k m := by
  induction m with
  | nil => simp [aupdate, alookup, h]
  | cons e rest ih =>
    obtain ⟨k0, v0⟩ := e
    rw [aupdate]
    by_cases hk : k0 = k'
    · rw [if_pos hk, alookup, alookup]
      subst hk
      rw [if_neg h, if_neg h]
    · rw [if_neg hk, alookup, alookup]
      by_cases hk0 : k0 = k
      · rw [if_pos hk0, if_pos hk0]
      · rw [if_neg hk0, if_neg hk0]
        exact ih

/-! Flag-preservation lemmas for the unmatch drain loop. -/

/-- `PopCache` never touches the end-flag map. -/
theorem popCache_flags (c : SessionUnmatchCache) :
    c.popCache.2.1.portEndFlagMap = c.portEndFlagMap := rfl

/-- The drain loop never touches the end-flag map. -/
theorem drainCache_flags (fuel : Nat) (c : SessionUnmatchCache) :
    (drainCache fuel c).2.portEndFlagMap = c.portEndFlagMap := by
  induction fuel generalizing c with
  | zero => rfl
  | succ f ih =>
    rw [drainCache]
    by_cases h : c.popCache.2.2 = PopStatus.nodata
    · rw [if_pos h]
      exact popCache_flags c
    · rw [if_neg h]
      exact ih c.popCache.2.1

/-- One session's delivery step never touches the end-flag map. -/
theorem sessionStep_flags (s : Session) (c : SessionUnmatchCache) :
    (sessionStep s c).2.portEndFlagMap = c.portEndFlagMap := by
  unfold sessionStep
  cases s.ioHandle with
  | none => rfl
  | some ioId => exact drainCache_flags (totalBuckets c + 1) c

/-- Hence `AllPortStreamEnd` observed after the drain equals the value before
it. -/
theorem sessionStep_allEnd (s : Session) (c : SessionUnmatchCache) :
    (sessionStep s c).2.allPortStreamEnd = c.allPortStreamEnd := by
  unfold SessionUnmatchCache.allPortStreamEnd
  rw [sessionStep_flags]

/-- A session absent from the cache map stays absent after the delivery
phase. -/
theorem processSessions_notmem (m : List (Session × SessionUnmatchCache))
    (S : Session) (h : alookup S m = none) :
    alookup S (processSessions m).2 = none := by
  induction m with
  | nil => rfl
  | cons sc rest ih =>
    obtain ⟨s, c⟩ := sc
    rw [alookup] at h
    by_cases hs : s = S
    · rw [if_pos hs] at h; exact absurd h (by simp)
    · rw [if_neg hs] at h
      rw [processSessions]
      by_cases hcond : ((sessionStep s c).2.allPortStreamEnd || s.isAbort)
        = true
      · simp only [hcond, if_true]
        exact ih h
      · simp only [hcond, if_false, Bool.false_eq_true, alookup, if_neg hs]
        exact ih h

/-! C6: session-entry erasure in `OutputUnmatchVirtualNode::Run`. -/

/-- Core of C6 over the delivery phase: with distinct keys, a session's entry
disappears from the map exactly when its cache reports `AllPortStreamEnd` or
the session is aborted. -/
theorem processSessions_erase_iff (m : List (Session × SessionUnmatchCache))
    (S : Session) (c : SessionUnmatchCache) (hdist : keysDistinct m)
    (hlook : alookup S m = some c) :
    (alookup S (processSessions m).2 = none) ↔
      (c.allPortStreamEnd || S.isAbort) = true := by
  induction m with
  | nil => exact absurd hlook (by simp [alookup])
  | cons sc rest ih =>
    obtain ⟨s, c0⟩ := sc
    rw [keysDistinct, List.pairwise_cons] at hdist
    obtain ⟨hne, hdrest⟩ := hdist
    rw [alookup] at hlook
    by_cases hs : s = S
    · rw [if_pos hs] at hlook
      injection hlook with hc0
      subst hc0
      subst hs
      rw [processSessions]
      by_cases hcond : (c0.allPortStreamEnd || s.isAbort) = true
      · have hstep :
            ((sessionStep s c0).2.allPortStreamEnd || s.isAbort) = true := by
          rw [sessionStep_allEnd]; exact hcond
        simp only [hstep, hcond, eq_self_iff_true, if_true, iff_true]
        refine processSessions_notmem rest s (alookup_eq_none s rest ?_)
        intro e he
        exact (hne e he).symm
      · rw [Bool.not_eq_true] at hcond
        have hstep :
            ((sessionStep s c0).2.allPortStreamEnd || s.isAbort) = false := by
          rw [sessionStep_allEnd]; exact hcond
        simp [hstep, hcond, alookup]
    · rw [if_neg hs] at hlook
      rw [processSessions]
      by_cases hcond : ((sessionStep s c0).2.allPortStreamEnd || s.isAbort)
        = true
      · simp only [hcond, if_true]
        exact ih hdrest hlook
      · simp only [hcond, if_false, Bool.false_eq_true, alookup, if_neg hs]
        exact ih hdrest hlook

/-- Intake of one buffer keeps the cache-map keys distinct. -/
theorem intakeBuffer_keysDistinct (portNames : List String)
    (m : List (Session × SessionUnmatchCache)) (portName : String)
    (b : Buffer) (h : keysDistinct m) :
    keysDistinct (intakeBuffer portNames m portName b) := by
  unfold intakeBuffer
  by_cases ha : b.index.stream.session.isAbort
  · rw [if_pos ha]; exact h
  · rw [if_neg ha]; exact aupdate_keysDistinct _ _ m h

/-- Intake of one port keeps the cache-map keys distinct. -/
theorem intakePort_keysDistinct (portNames : List String)
    (m : List (Session × SessionUnmatchCache)) (portName : String)
    (bufs : List Buffer) (h : keysDistinct m) :
    keysDistinct (intakePort portNames m portName bufs) := by
  induction bufs generalizing m with
  | nil => exact h
  | cons b rest ih =>
    exact ih _ (intakeBuffer_keysDistinct portNames m portName b h)

/-- The whole intake phase keeps the cache-map keys distinct. -/
theorem intakePhase_keysDistinct (portNames : List String)
    (m : List (Session × SessionUnmatchCache))
    (inputs : List (String × List Buffer)) (h : keysDistinct m) :
    keysDistinct (intakePhase portNames m inputs) := by
  induction inputs generalizing m with
  | nil => exact h
  | cons pd rest ih =>
    exact ih _ (intakePort_keysDistinct portNames m pd.1 pd.2 h)

/-- C6.  At the end of `OutputUnmatchVirtualNode::Run` a session's entry has
been erased from `session_cache_map_` iff its cache (as it stands after the
intake phase) reports `AllPortStreamEnd` or the session is aborted; otherwise
the entry persists to the next `Run`. -/
theorem c6_session_erasure (portNames : List String)
    (state : List (Session × SessionUnmatchCache))
    (inputs : List (String × List Buffer)) (S : Session)
    (c : SessionUnmatchCache) (hdist : keysDistinct state)
    (hlook : alookup S (intakePhase portNames state inputs) = some c) :
    (alookup S (outputUnmatchRun portNames state inputs).2 = none) ↔
      (c.allPortStreamEnd || S.isAbort) = true :=
  processSessions_erase_iff (intakePhase portNames state inputs) S c
    (intakePhase_keysDistinct portNames state inputs hdist) hlook

/-- Witness for C6: a session whose only stream has not ended keeps its entry
after the `Run` that delivered its buffer. -/
theorem c6_witness :
    ¬ (alookup sLive
        (outputUnmatchRun ["p"] [] [("p", [bufValid])]).2 = none) ∧
    ((⟨[("p", false)], [("p", [(1, [bufValid])])],
        none⟩ : SessionUnmatchCache).allPortStreamEnd || sLive.isAbort)
      = false :=
  ⟨fun h =>
      absurd
        ((c6_session_erasure ["p"] [] [("p", [bufValid])] sLive
          ⟨[("p", false)], [("p", [(1, [bufValid])])], none⟩
          (by simp [keysDistinct]) (by decide)).mp h)
        (by decide),
    by decide⟩

/-! C5: behaviour of the two output nodes for aborted sessions. -/

/-- Counterexample to C5 as stated: a buffer cached for a session *before*
the abort is still delivered by the next `OutputUnmatchVirtualNode::Run` —
the delivery loop checks `IsAbort` only for the erase decision, not before
pushing. -/
theorem c5_counterexample :
    sAborted.isAbort = true ∧
    bufAborted.index.stream.session = sAborted ∧
    deliveredUnmatchBuffers
      (outputUnmatchRun ["p"]
        [(sAborted, ⟨[("p", false)], [("p", [(5, [bufAborted])])], none⟩)]
        []).1 = [bufAborted] := by
  decide

/-- C5 (amended).  `OutputVirtualNode::Run` delivers nothing for an aborted
session.  `OutputUnmatchVirtualNode::Run` never creates a cache entry for an
aborted session (its incoming buffers are skipped), and every push it emits is
issued on the handle of a session that holds a cache entry — so only buffers
cached before the abort can still be delivered, in the `Run` that observes the
abort and erases the entry. -/
theorem c5_abort_delivery :
    (∀ m : MatchStreamData, m.session.isAbort = true →
      outputVirtualRunOne m = []) ∧
    (∀ (portNames : List String)
      (state : List (Session × SessionUnmatchCache))
      (inputs : List (String × List Buffer)) (S : Session),
      S.isAbort = true → alookup S state = none →
      alookup S (intakePhase portNames state inputs) = none) ∧
    (∀ (m : List (Session × SessionUnmatchCache)) (ioId : Nat)
      (output : List (String × List Buffer)),
      UnmatchEvent.push ioId output ∈ (processSessions m).1 →
      ∃ sc ∈ m, sc.1.ioHandle = some ioId) := by
  refine ⟨?_, ?_, ?_⟩
  · intro m ha
    unfold outputVirtualRunOne
    by_cases hc : m.dataCount = 0
    · rw [if_pos hc]
    · rw [if_neg hc, ha]
      simp
  · intro portNames state inputs S hS hnone
    induction inputs generalizing state with
    | nil => exact hnone
    | cons pd rest ih =>
      refine ih _ ?_
      show alookup S (intakePort portNames state pd.1 pd.2) = none
      clear ih
      induction pd.2 generalizing state with
      | nil => exact hnone
      | cons b bufs ihb =>
        refine ihb _ ?_
        show alookup S (intakeBuffer portNames state pd.1 b) = none
        unfold intakeBuffer
        by_cases hab : b.index.stream.session.isAbort
        · rw [if_pos hab]; exact hnone
        · rw [if_neg hab]
          have hneq : b.index.stream.session ≠ S := by
            intro heq
            rw [heq, hS] at hab
            exact hab rfl
          rw [alookup_aupdate_ne _ _ hneq]
          exact hnone
  · intro m ioId output hmem
    induction m with
    | nil => simp [processSessions] at hmem
    | cons sc rest ih =>
      obtain ⟨s, c⟩ := sc
      rw [processSessions] at hmem
      simp only [List.mem_append] at hmem
      rcases hmem with hl | hr
      · refine ⟨(s, c), List.mem_cons_self _ _, ?_⟩
        unfold sessionStep at hl
        cases hio : s.ioHandle with
        | none => rw [hio] at hl; simp at hl
        | some i =>
          rw [hio] at hl
          simp only [List.mem_cons] at hl
          rcases hl with heq | hmap
          · exact absurd heq (by simp)
          · rw [List.mem_map] at hmap
            obtain ⟨o, ho, heq⟩ := hmap
            injection heq.symm with h1 h2
            rw [h1]
      · obtain ⟨sc', hsc', hh⟩ := ih hr
        exact ⟨sc', List.mem_cons_of_mem _ hsc', hh⟩

/-- Witness for C5 (amended): the aborted session gets no match-stream
delivery and acquires no cache entry; a live session's push is backed by its
cache-map entry. -/
theorem c5_witness :
    (outputVirtualRunOne ⟨sAborted, [("p", [bufAborted])]⟩ = []) ∧
    (alookup sAborted (intakePhase ["p"] [] [("p", [bufAborted])]) = none) ∧
    (∃ sc ∈ [(sLive, (⟨[("p", false)], [("p", [(1, [bufValid])])],
        none⟩ : SessionUnmatchCache))], sc.1.ioHandle = some 0) :=
  ⟨c5_abort_delivery.1 ⟨sAborted, [("p", [bufAborted])]⟩ (by decide),
    c5_abort_delivery.2.1 ["p"] [] [("p", [bufAborted])] sAborted
      (by decide) (by decide),
    c5_abort_delivery.2.2
      [(sLive, ⟨[("p", false)], [("p", [(1, [bufValid])])], none⟩)] 0
      [("p", [bufValid])] (by decide)⟩

/-! C8/C9: graph checker and match-node assignment (spec-modelled). -/

/-- A successful lookup exposes a member of the association list. -/
theorem alookup_mem {α β : Type} [DecidableEq α] {k : α} {v : β}
    {m : List (α × β)} (h : alookup k m = some v) : (k, v) ∈ m := by
  induction m with
  | nil => simp [alookup] at h
  | cons e rest ih =>
    obtain ⟨k', v'⟩ := e
    rw [alookup] at h
    by_cases hk : k' = k
    · rw [if_pos hk] at h
      injection h with h'
      subst h'
      subst hk
      exact List.mem_cons_self _ _
    · rw [if_neg hk] at h
      exact List.mem_cons_of_mem _ (ih h)

/-- Updating a key makes it found with the new value. -/
theorem alookup_aupdate_self {α β : Type} [DecidableEq α] (k : α) (v : β)
    (m : List (α × β)) : alookup k (aupdate k v m) = some v := by
  induction m with
  | nil => simp [aupdate, alookup]
  | cons e rest ih =>
    obtain ⟨k', v'⟩ := e
    rw [aupdate]
    by_cases hk : k' = k
    · rw [if_pos hk, alookup, if_pos rfl]
    · rw [if_neg hk, alookup, if_neg hk]
      exact ih

/-- A successful collapse step always pairs the collapse with an expand found
on top of its input hierarchy. -/
theorem applyKind_collapse (g : GraphDef) (n : String) (s1 : List String)
    (cm : Option String) (o : List String) (m : Option String)
    (h : applyKind g n NodeKind.collapse s1 cm = some (o, m)) :
    ∃ e, m = some e ∧ kindOf g e = some NodeKind.expand := by
  cases s1 with
  | nil =>
    rw [show applyKind g n NodeKind.collapse [] cm = none from rfl] at h
    exact absurd h (by simp)
  | cons top rest =>
    rw [show applyKind g n NodeKind.collapse (top :: rest) cm =
        (if kindOf g top = some NodeKind.expand then some (rest, some top)
          else none) from rfl] at h
    by_cases hk : kindOf g top = some NodeKind.expand
    · rw [if_pos hk] at h
      simp only [Option.some.injEq, Prod.mk.injEq] at h
      exact ⟨top, h.2.symm, hk⟩
    · rw [if_neg hk] at h
      exact absurd h (by simp)

/-- Processing a collapse node successfully assigns it an expand match
node. -/
theorem processNode_collapse (g : GraphDef)
    (stkmap : List (String × List String)) (n : String) (o : List String)
    (m : Option String) (h : processNode g stkmap n = some (o, m))
    (hk : alookup n g.nodes = some NodeKind.collapse) :
    ∃ e, m = some e ∧ kindOf g e = some NodeKind.expand := by
  unfold processNode at h
  simp only [hk] at h
  split at h
  · exact absurd h (by simp)
  · split at h
    · split at h
      · exact applyKind_collapse g n _ _ o m h
      · exact applyKind_collapse g n _ _ o m h
    · exact absurd h (by simp)

/-- Invariant carried by the checker walk: every collapse entry of the
match-node assignment points at an expand. -/
def matchInvariant (g : GraphDef) (ma : List (String × Option String)) :
    Prop :=
  ∀ p ∈ ma, kindOf g p.1 = some NodeKind.collapse →
    ∃ e, p.2 = some e ∧ kindOf g e = some NodeKind.expand

/-- Keys present in the assignment survive the rest of the walk. -/
theorem checkFold_keys (g : GraphDef) (l : List String) :
    ∀ stkmap ma st', checkFold g stkmap ma l = some st' →
    ∀ x (v : Option String), alookup x ma = some v →
    ∃ v', alookup x st'.2 = some v' := by
  induction l with
  | nil =>
    intro stkmap ma st' h x v hx
    injection h with h'
    subst h'
    exact ⟨v, hx⟩
  | cons n rest ih =>
    intro stkmap ma st' h x v hx
    rw [checkFold] at h
    split at h
    · exact absurd h (by simp)
    · rename_i outS mm heq
      by_cases hx' : n = x
      · subst hx'
        exact ih _ _ _ h n mm (alookup_aupdate_self n mm ma)
      · exact ih _ _ _ h x v
          ((alookup_aupdate_ne mm ma hx').trans hx)

/-- The walk preserves the collapse-match invariant and records an assignment
for every processed node. -/
theorem checkFold_inv (g : GraphDef) (l : List String) :
    ∀ stkmap ma st', checkFold g stkmap ma l = some st' →
    matchInvariant g ma →
    matchInvariant g st'.2 ∧ ∀ n ∈ l, ∃ v, alookup n st'.2 = some v := by
  induction l with
  | nil =>
    intro stkmap ma st' h hinv
    injection h with h'
    subst h'
    exact ⟨hinv, by simp⟩
  | cons n rest ih =>
    intro stkmap ma st' h hinv
    rw [checkFold] at h
    split at h
    · exact absurd h (by simp)
    · rename_i outS mm heq
      have hinv' : matchInvariant g (aupdate n mm ma) := by
        intro p hp hcol
        rcases mem_aupdate hp with rfl | hp'
        · exact processNode_collapse g stkmap n outS mm heq hcol
        · exact hinv p hp' hcol
      obtain ⟨hi, hcov⟩ := ih _ _ _ h hinv'
      refine ⟨hi, ?_⟩
      intro x hx
      rcases List.mem_cons.mp hx with rfl | hx'
      · exact checkFold_keys g rest _ _ _ h x mm
          (alookup_aupdate_self x mm ma)
      · exact hcov x hx'

/-- C8.  (Modelled from the spec, the checker source being outside this
repository slice.)  A graph accepted by the checker pairs every collapse node
with a preceding expand on its input hierarchy — hence a graph containing a
collapse with no preceding expand is rejected with `BADCONF`, the checker's
only non-`OK` verdict.  Concretely, the `OnlyCollapse` test graph yields
`BADCONF` while the expand-directly-into-collapse test graph yields `OK`. -/
theorem c8_collapse_requires_expand :
    (∀ g : GraphDef, (checkGraph g).1 = CheckStatus.ok →
      ∀ n ∈ g.topo, alookup n g.nodes = some NodeKind.collapse →
      ∃ e, alookup n (checkGraph g).2 = some (some e) ∧
        alookup e g.nodes = some NodeKind.expand) ∧
    (checkGraph gOnlyCollapse).1 = CheckStatus.badconf ∧
    (checkGraph gDirectEC).1 = CheckStatus.ok := by
  refine ⟨?_, rfl, rfl⟩
  intro g hok n hn hcol
  unfold checkGraph at hok ⊢
  cases hcf : checkFold g [] [] g.topo with
  | none =>
    rw [hcf] at hok
    exact absurd hok (by simp)
  | some st' =>
    obtain ⟨stk', ma'⟩ := st'
    show ∃ e, alookup n ma' = some (some e) ∧
      alookup e g.nodes = some NodeKind.expand
    obtain ⟨hinv, hcov⟩ := checkFold_inv g g.topo [] [] (stk', ma') hcf
      (fun p hp => absurd hp (List.not_mem_nil p))
    obtain ⟨v, hv⟩ := hcov n hn
    obtain ⟨e, he, hke⟩ := hinv (n, v) (alookup_mem hv) hcol
    refine ⟨e, ?_, hke⟩
    rw [hv]
    exact congrArg some he

/-- Witness for C8 on the accepted direct expand-collapse graph: the collapse
`d` is matched with the expand `b`. -/
theorem c8_witness :
    ((checkGraph gDirectEC).1 = CheckStatus.ok) ∧
    ("d" ∈ gDirectEC.topo) ∧
    (alookup "d" gDirectEC.nodes = some NodeKind.collapse) ∧
    ∃ e, alookup "d" (checkGraph gDirectEC).2 = some (some e) ∧
      alookup e gDirectEC.nodes = some NodeKind.expand :=
  ⟨rfl, by decide, rfl,
    c8_collapse_requires_expand.1 gDirectEC rfl "d" (by decide) rfl⟩

/-- C9.  (Modelled from the spec.)  For the accepted graph
`a → b(expand) → c(condition) → d → e(collapse) → f` the build returns `OK`
and assigns `MatchNode(d) = c`, `MatchNode(e) = b`, and no match node for
`a`, `b`, `c` and `f`. -/
theorem c9_matchnode_assignment :
    (checkGraph gMatchNode).1 = CheckStatus.ok ∧
    alookup "a" (checkGraph gMatchNode).2 = some none ∧
    alookup "b" (checkGraph gMatchNode).2 = some none ∧
    alookup "c" (checkGraph gMatchNode).2 = some none ∧
    alookup "d" (checkGraph gMatchNode).2 = some (some "c") ∧
    alookup "e" (checkGraph gMatchNode).2 = some (some "b") ∧
    alookup "f" (checkGraph gMatchNode).2 = some none :=
  ⟨rfl, rfl, rfl, rfl, rfl, rfl, rfl⟩

end Modelbox
